import Mathlib

/-!
Verification of the a3m/JSON alignment scripts (convert_between_a3m_json.py,
remove_msa_from_chain_af2.py, run_mmseqs2.py).

Lines of alignment text are modelled as lists of characters, without their
trailing newline.  Python dictionaries keyed by header strings are modelled as
association lists in insertion order, with assignment replacing the value of
an existing key in place.  Fallible code returns Except values; an error value
means the script aborted before writing any output.
-/

/-- A line of text (Python str), as a list of characters. -/
abbrev Line := List Char

/-- A Python dict from header to sequence, in insertion order. -/
abbrev HDict := List (Line × Line)

/-! ## Column Splitter: split_sequence_by_chains (convert_between_a3m_json.py,
also split_input_by_chains in run_mmseqs2.py, identical code).

The inner while loop: keep consuming characters while fewer than
target_length non-lowercase characters have been counted and input remains. -/

/-- One chain's walk of the while loop: consume characters of `s` until `t`
non-lowercase characters have been taken (or `s` is exhausted); returns the
consumed segment and the remaining input. -/
def takeChain : Nat → Line → Line × Line
  | _, [] => ([], [])
  | 0, s => ([], s)
  | t + 1, c :: rest =>
    if c.isLower then
      let p := takeChain (t + 1) rest
      (c :: p.1, p.2)
    else
      let p := takeChain t rest
      (c :: p.1, p.2)

/-- split_sequence_by_chains: one segment per declared length, the input
position carried across chains. -/
def split_sequence_by_chains (s : Line) (lengths : List Nat) : List Line :=
  match lengths with
  | [] => []
  | l :: ls =>
    let p := takeChain l s
    p.1 :: split_sequence_by_chains p.2 ls

/-- The number of visible characters of a row: those that are not lowercase
(uppercase letters and gap characters all count, as in the source's
`if not char.islower()`). -/
def visibleCount (s : Line) : Nat := (s.filter (fun c => !c.isLower)).length

theorem visibleCount_nil : visibleCount [] = 0 := rfl

theorem visibleCount_cons (c : Char) (s : Line) :
    visibleCount (c :: s) = (if c.isLower then 0 else 1) + visibleCount s := by
  by_cases h : c.isLower <;> simp [visibleCount, h] <;> omega

theorem takeChain_append (t : Nat) (s : Line) :
    (takeChain t s).1 ++ (takeChain t s).2 = s := by
  induction s generalizing t with
  | nil => cases t <;> simp [takeChain]
  | cons c rest ih =>
    cases t with
    | zero => simp [takeChain]
    | succ t => by_cases hc : c.isLower <;> simp [takeChain, hc, ih]

theorem takeChain_visible (t : Nat) (s : Line) :
    visibleCount (takeChain t s).2 = visibleCount s - t := by
  induction s generalizing t with
  | nil => cases t <;> simp [takeChain, visibleCount]
  | cons c rest ih =>
    cases t with
    | zero => simp [takeChain]
    | succ t =>
      by_cases hc : c.isLower <;>
        simp [takeChain, hc, visibleCount_cons, ih] <;> omega

theorem takeChain_rem_nil_of_lt (t : Nat) (s : Line) (h : visibleCount s < t) :
    (takeChain t s).2 = [] := by
  induction s generalizing t with
  | nil => cases t <;> simp [takeChain]
  | cons c rest ih =>
    cases t with
    | zero => omega
    | succ t =>
      by_cases hc : c.isLower
      · have := visibleCount_cons c rest
        simp [takeChain, hc]
        exact ih (t + 1) (by rw [visibleCount_cons] at h; simp [hc] at h; omega)
      · simp [takeChain, hc]
        exact ih t (by rw [visibleCount_cons] at h; simp [hc] at h; omega)

/-- If a row has no visible characters and does not end in a lowercase
character, it is empty. -/
theorem eq_nil_of_visible_zero (s : Line) (h0 : visibleCount s = 0)
    (hlast : ∀ c, s.getLast? = some c → ¬ c.isLower) : s = [] := by
  cases hs : s with
  | nil => rfl
  | cons c rest =>
    exfalso
    have hall : ∀ x ∈ s, x.isLower := by
      intro x hx
      by_contra hlow
      have : (0:Nat) < visibleCount s := by
        have : x ∈ s.filter (fun c => !c.isLower) := by
          simp [List.mem_filter, hx, hlow]
        have := List.length_pos_of_mem this
        simpa [visibleCount] using this
      omega
    have hne : s ≠ [] := by simp [hs]
    obtain ⟨y, hy⟩ := List.getLast?_isSome.2 hne |> Option.isSome_iff_exists.1
    have hmem : y ∈ s := List.mem_of_mem_getLast? hy
    exact hlast y hy (hall y hmem)

/-- If the row ends early (exhausted before a chain boundary), the walk
leaves nothing behind, so trailing characters of the remainder transfer. -/
theorem takeChain_rem_nil_of_eq (t : Nat) (s : Line) (h : visibleCount s = t)
    (hlast : ∀ c, s.getLast? = some c → ¬ c.isLower) :
    (takeChain t s).2 = [] := by
  induction s generalizing t with
  | nil => cases t <;> simp [takeChain]
  | cons c rest ih =>
    cases t with
    | zero =>
      have := eq_nil_of_visible_zero (c :: rest) h hlast
      simp at this
    | succ t =>
      by_cases hc : c.isLower
      · simp only [takeChain, hc, if_pos]
        have hrest : visibleCount rest = t + 1 := by
          rw [visibleCount_cons] at h; simp [hc] at h; omega
        have hrne : rest ≠ [] := by
          intro hr; rw [hr] at hrest; simp [visibleCount] at hrest
        cases rest with
        | nil => exact absurd rfl hrne
        | cons d ds =>
          exact ih (t + 1) hrest (fun x hx =>
            hlast x (by rw [List.getLast?_cons_cons]; exact hx))
      · simp only [takeChain, hc]
        simp only [Bool.false_eq_true, if_false]
        have hrest : visibleCount rest = t := by
          rw [visibleCount_cons] at h; simp [hc] at h; omega
        cases hr : rest with
        | nil => subst hr; cases t <;> simp_all [takeChain, visibleCount]
        | cons d ds =>
          subst hr
          exact ih t hrest (fun x hx =>
            hlast x (by rw [List.getLast?_cons_cons]; exact hx))

theorem split_join_aux (lengths : List Nat) :
    (split_sequence_by_chains [] lengths).flatten = [] := by
  induction lengths with
  | nil => rfl
  | cons l ls ih => cases l <;> simp [split_sequence_by_chains, takeChain, ih]

/-- Claim C9 (confirmed): the Column Splitter always returns normally with
exactly one segment per declared length, and when the input is exhausted
before the declared lengths are satisfied the segments simply cover the whole
(short) input with no error. -/
theorem splitter_total (s : Line) (lengths : List Nat) :
    (split_sequence_by_chains s lengths).length = lengths.length ∧
      (visibleCount s < lengths.sum →
        (split_sequence_by_chains s lengths).flatten = s) := by
  constructor
  · induction lengths generalizing s with
    | nil => rfl
    | cons l ls ih => simp [split_sequence_by_chains, ih]
  · intro hlt
    induction lengths generalizing s with
    | nil => simp at hlt
    | cons l ls ih =>
      by_cases hvis : visibleCount s < l
      · have hrem := takeChain_rem_nil_of_lt l s hvis
        have happ := takeChain_append l s
        simp [split_sequence_by_chains, hrem, split_join_aux]
        rw [hrem] at happ; simpa using happ
      · have hrem : visibleCount (takeChain l s).2 < ls.sum := by
          rw [takeChain_visible]
          simp at hlt ⊢
          omega
        have happ := takeChain_append l s
        simp [split_sequence_by_chains]
        rw [ih _ hrem]
        exact happ

/-- Claim C9 witness. -/
theorem splitter_total_witness :
    (split_sequence_by_chains (['A', 'b']) ([3, 2])).length = 2 ∧
      (split_sequence_by_chains (['A', 'b']) ([3, 2])).flatten = ['A', 'b'] :=
  ⟨(splitter_total (['A', 'b']) ([3, 2])).1,
   (splitter_total (['A', 'b']) ([3, 2])).2 (by decide)⟩

/-- Claim C3 counterexample: lengths `[1]` and sequence `"Ax"` satisfy the
visible-length invariant (one visible character), yet the splitter's segments
concatenate to `"A"`, not `"Ax"`: the trailing lowercase character is
dropped. -/
theorem split_concat_counterexample :
    visibleCount (['A', 'x']) = ([1] : List Nat).sum ∧
      (∀ l ∈ ([1] : List Nat), 0 < l) ∧
      (split_sequence_by_chains (['A', 'x']) ([1])).flatten ≠ ['A', 'x'] := by
  decide

/-- Claim C3 (corrected): for positive lengths and a sequence whose visible
length equals the sum of the lengths, the concatenation of the splitter's
segments reproduces the sequence exactly, provided the sequence does not end
in a lowercase (insertion) character; a trailing lowercase run is dropped. -/
theorem split_concat_id (s : Line) (lengths : List Nat)
    (hvis : visibleCount s = lengths.sum)
    (hlast : ∀ c, s.getLast? = some c → ¬ c.isLower)
    (hpos : ∀ l ∈ lengths, 0 < l) :
    (split_sequence_by_chains s lengths).flatten = s := by
  induction lengths generalizing s with
  | nil =>
    simp at hvis
    rw [eq_nil_of_visible_zero s hvis hlast]
    rfl
  | cons l ls ih =>
    have happ := takeChain_append l s
    have hvrem : visibleCount (takeChain l s).2 = ls.sum := by
      rw [takeChain_visible]
      simp at hvis
      omega
    have hlrem : ∀ c, (takeChain l s).2.getLast? = some c → ¬ c.isLower := by
      intro c hc
      apply hlast c
      rw [← happ]
      have hne : (takeChain l s).2 ≠ [] := by
        intro h; rw [h] at hc; simp at hc
      rw [List.getLast?_append_of_ne_nil _ hne]
      exact hc
    have := ih (takeChain l s).2 hvrem hlrem (fun x hx => hpos x (by simp [hx]))
    simp [split_sequence_by_chains, this, happ]

/-- Claim C3 witness (for the corrected statement). -/
theorem split_concat_id_witness :
    visibleCount (['A', 'b', 'C', 'D', 'E']) = ([2, 2] : List Nat).sum ∧
      (split_sequence_by_chains (['A', 'b', 'C', 'D', 'E'])
          ([2, 2])).flatten = ['A', 'b', 'C', 'D', 'E'] :=
  ⟨by decide,
   split_concat_id (['A', 'b', 'C', 'D', 'E']) ([2, 2]) (by decide)
     (by decide) (by decide)⟩

/-! ## Pairing Classifier and the header/sequence pairing loop of
process_chain (convert_between_a3m_json.py).

The loop walks the unpairedMsa lines two at a time (`range(0, len, 2)` with
an `i+1 < len` guard), classifying each header/sequence pair into the
unpaired or the paired dictionary. -/

/-- Python substring test helper: is `pat` an initial segment of `s`. -/
def isPrefixL : Line → Line → Bool
  | [], _ => true
  | _ :: _, [] => false
  | a :: as, b :: bs => a == b && isPrefixL as bs

/-- Python `pat in s` substring containment. -/
def strContains (pat : Line) : Line → Bool
  | [] => pat.isEmpty
  | c :: rest => isPrefixL pat (c :: rest) || strContains pat rest

theorem isPrefixL_iff (pat s : Line) :
    isPrefixL pat s = true ↔ ∃ r, pat ++ r = s := by
  induction pat generalizing s with
  | nil => simp [isPrefixL]
  | cons a as ih =>
    cases s with
    | nil => simp [isPrefixL]
    | cons b bs =>
      simp only [isPrefixL, Bool.and_eq_true, beq_iff_eq, ih]
      constructor
      · rintro ⟨rfl, r, rfl⟩; exact ⟨r, rfl⟩
      · rintro ⟨r, h⟩
        injection h with h1 h2
        exact ⟨h1, r, h2⟩

theorem strContains_iff (pat s : Line) :
    strContains pat s = true ↔ ∃ l r, l ++ (pat ++ r) = s := by
  induction s with
  | nil =>
    simp only [strContains, List.isEmpty_iff]
    constructor
    · rintro rfl; exact ⟨[], [], rfl⟩
    · rintro ⟨l, r, h⟩
      rcases List.append_eq_nil.1 h with ⟨rfl, h2⟩
      exact (List.append_eq_nil.1 h2).1
  | cons c rest ih =>
    simp only [strContains, Bool.or_eq_true, isPrefixL_iff, ih]
    constructor
    · rintro (⟨r, h⟩ | ⟨l, r, h⟩)
      · exact ⟨[], r, by simpa using h⟩
      · exact ⟨c :: l, r, by simpa using h⟩
    · rintro ⟨l, r, h⟩
      cases l with
      | nil => exact Or.inl ⟨r, by simpa using h⟩
      | cons x xs =>
        injection h with h1 h2
        exact Or.inr ⟨xs, r, h2⟩

/-- The classifier of process_chain, verbatim from
`('E+' in header or 'E-' in header) or '\t' not in header`. -/
def unpairedCond (header : Line) : Bool :=
  (strContains (['E', '+']) header || strContains (['E', '-']) header) ||
    !(header.contains '\t')

/-- Claim C8 (confirmed): a header is classified as unpaired exactly when it
contains the substring `E+`, or contains the substring `E-`, or contains no
tab character; any other header is classified as paired. -/
theorem classifier_rule (h : Line) :
    unpairedCond h = true ↔
      ((∃ l r, l ++ (['E', '+'] ++ r) = h) ∨
        (∃ l r, l ++ (['E', '-'] ++ r) = h) ∨ '\t' ∉ h) := by
  have hcontains : (h.contains '\t' = false) ↔ '\t' ∉ h := by
    rw [← Bool.not_eq_true]
    exact not_congr List.elem_iff
  simp only [unpairedCond, Bool.or_eq_true, Bool.not_eq_true', strContains_iff,
    hcontains]
  exact or_assoc

/-- Python dict assignment `d[k] = v` on an insertion-ordered association
list: replace in place if the key exists, else append. -/
def dinsert (k v : Line) : HDict → HDict
  | [] => [(k, v)]
  | (k', v') :: rest =>
    if k' = k then (k, v) :: rest else (k', v') :: dinsert k v rest

/-- The keys of a dict, in order. -/
def keysD (d : HDict) : List Line := d.map Prod.fst

/-- The header/sequence pairs visited by `range(0, len, 2)` with the
`i+1 < len` guard: a final unmatched element is not visited. -/
def splitPairs : List Line → List (Line × Line)
  | [] => []
  | [_] => []
  | h :: s :: rest => (h, s) :: splitPairs rest

/-- The classification loop body over the visited pairs, accumulating the
(unpaired, paired) dictionaries. -/
def buildDictsAux : List (Line × Line) → HDict × HDict → HDict × HDict
  | [], acc => acc
  | (h, s) :: rest, (u, p) =>
    if unpairedCond h then buildDictsAux rest (dinsert h s u, p)
    else buildDictsAux rest (u, dinsert h s p)

/-- The unpaired/paired dictionaries built by process_chain from the
unpairedMsa lines. -/
def buildDicts (msa : List Line) : HDict × HDict :=
  buildDictsAux (splitPairs msa) ([], [])

theorem keysD_dinsert (k v : Line) (d : HDict) (x : Line) :
    x ∈ keysD (dinsert k v d) ↔ x = k ∨ x ∈ keysD d := by
  induction d with
  | nil => simp [dinsert, keysD]
  | cons p rest ih =>
    obtain ⟨k', v'⟩ := p
    by_cases hk : k' = k
    · subst hk
      simp only [dinsert, keysD, List.map_cons, List.mem_cons, ite_true,
        eq_self_iff_true]
      tauto
    · simp only [dinsert, if_neg hk, keysD, List.map_cons] at ih ⊢
      simp only [List.mem_cons] at ih ⊢
      rw [ih]
      tauto

theorem buildDictsAux_fst_mem (ps : List (Line × Line)) (u p : HDict)
    (x : Line) :
    x ∈ keysD (buildDictsAux ps (u, p)).1 ↔
      x ∈ keysD u ∨ ∃ pr ∈ ps, pr.1 = x ∧ unpairedCond x = true := by
  induction ps generalizing u p with
  | nil => simp [buildDictsAux]
  | cons q rest ih =>
    obtain ⟨hh, ss⟩ := q
    by_cases hc : unpairedCond hh
    · simp only [buildDictsAux, if_pos hc]
      rw [ih]
      simp only [keysD_dinsert, List.exists_mem_cons_iff]
      constructor
      · rintro ((rfl | hu) | hex)
        · exact Or.inr (Or.inl ⟨rfl, hc⟩)
        · exact Or.inl hu
        · exact Or.inr (Or.inr hex)
      · rintro (hu | ⟨hx, hcx⟩ | hex)
        · exact Or.inl (Or.inr hu)
        · exact Or.inl (Or.inl hx.symm)
        · exact Or.inr hex
    · simp only [buildDictsAux, if_neg hc]
      rw [ih]
      simp only [List.exists_mem_cons_iff]
      constructor
      · rintro (hu | hex)
        · exact Or.inl hu
        · exact Or.inr (Or.inr hex)
      · rintro (hu | ⟨hx, hcx⟩ | hex)
        · exact Or.inl hu
        · rw [← hx] at hcx
          exact absurd hcx hc
        · exact Or.inr hex

theorem buildDictsAux_snd_mem (ps : List (Line × Line)) (u p : HDict)
    (x : Line) :
    x ∈ keysD (buildDictsAux ps (u, p)).2 ↔
      x ∈ keysD p ∨ ∃ pr ∈ ps, pr.1 = x ∧ unpairedCond x = false := by
  induction ps generalizing u p with
  | nil => simp [buildDictsAux]
  | cons q rest ih =>
    obtain ⟨hh, ss⟩ := q
    by_cases hc : unpairedCond hh
    · simp only [buildDictsAux, if_pos hc]
      rw [ih]
      simp only [List.exists_mem_cons_iff]
      constructor
      · rintro (hp | hex)
        · exact Or.inl hp
        · exact Or.inr (Or.inr hex)
      · rintro (hp | ⟨hx, hcx⟩ | hex)
        · exact Or.inl hp
        · rw [← hx] at hcx
          simp [hc] at hcx
        · exact Or.inr hex
    · simp only [buildDictsAux, if_neg hc]
      rw [ih]
      simp only [keysD_dinsert, List.exists_mem_cons_iff]
      constructor
      · rintro ((rfl | hp) | hex)
        · exact Or.inr (Or.inl ⟨rfl, by rwa [Bool.not_eq_true] at hc⟩)
        · exact Or.inl hp
        · exact Or.inr (Or.inr hex)
      · rintro (hp | ⟨hx, hcx⟩ | hex)
        · exact Or.inl (Or.inr hp)
        · exact Or.inl (Or.inl hx.symm)
        · exact Or.inr hex

theorem splitPairs_append_single (xs : List Line) (h : Line)
    (heven : xs.length % 2 = 0) : splitPairs (xs ++ [h]) = splitPairs xs := by
  induction xs using splitPairs.induct with
  | case1 => rfl
  | case2 a => simp at heven
  | case3 a b rest ih =>
    simp only [List.length_cons] at heven
    simp only [List.cons_append, splitPairs]
    rw [show rest.append [h] = rest ++ [h] from rfl, ih (by omega)]

theorem pair_mem_splitPairs (xs : List Line) (i : Nat)
    (hi : 2 * i + 1 < xs.length) :
    (xs.getD (2 * i) [], xs.getD (2 * i + 1) []) ∈ splitPairs xs := by
  induction xs using splitPairs.induct generalizing i with
  | case1 => simp at hi
  | case2 a => simp at hi
  | case3 a b rest ih =>
    cases i with
    | zero => simp [splitPairs]
    | succ j =>
      simp only [List.length_cons] at hi
      rw [show 2 * (j + 1) = 2 * j + 1 + 1 from by omega,
        show 2 * j + 1 + 1 + 1 = 2 * j + 1 + 1 + 1 from rfl]
      simp only [List.getD_cons_succ]
      simp only [splitPairs, List.mem_cons]
      right
      exact ih j (by omega)

/-- Claim C10 (confirmed): when the unpairedMsa text has an odd number of
lines, process_chain silently ignores the final unmatched header line (the
dictionaries are the same as without it, and no error is raised); for an
even number of lines, every (header, sequence) pair at positions
(2i, 2i+1) is placed in exactly one of the two dictionaries, according to
the classifier. -/
theorem process_chain_pairing (xs : List Line) (h : Line) (i : Nat)
    (heven : xs.length % 2 = 0) (hi : 2 * i + 1 < xs.length) :
    buildDicts (xs ++ [h]) = buildDicts xs ∧
      (unpairedCond (xs.getD (2 * i) []) = true →
        xs.getD (2 * i) [] ∈ keysD (buildDicts xs).1 ∧
          xs.getD (2 * i) [] ∉ keysD (buildDicts xs).2) ∧
      (unpairedCond (xs.getD (2 * i) []) = false →
        xs.getD (2 * i) [] ∈ keysD (buildDicts xs).2 ∧
          xs.getD (2 * i) [] ∉ keysD (buildDicts xs).1) := by
  refine ⟨?_, ?_, ?_⟩
  · unfold buildDicts
    rw [splitPairs_append_single xs h heven]
  · intro hcond
    constructor
    · rw [buildDicts, buildDictsAux_fst_mem]
      exact Or.inr ⟨_, pair_mem_splitPairs xs i hi, rfl, hcond⟩
    · rw [buildDicts, buildDictsAux_snd_mem]
      rintro (hk | ⟨pr, hpr, hx, hcx⟩)
      · simp [keysD] at hk
      · rw [hcond] at hcx; simp at hcx
  · intro hcond
    constructor
    · rw [buildDicts, buildDictsAux_snd_mem]
      exact Or.inr ⟨_, pair_mem_splitPairs xs i hi, rfl, hcond⟩
    · rw [buildDicts, buildDictsAux_fst_mem]
      rintro (hk | ⟨pr, hpr, hx, hcx⟩)
      · simp [keysD] at hk
      · rw [hcond] at hcx; simp at hcx

/-- Claim C10 witness: a four-line MSA (one unpaired pair, one paired pair)
with a trailing unmatched header. -/
theorem process_chain_pairing_witness :
    buildDicts (([['>', 'a'], ['A'], ['>', 'b', '\t', 'c'], ['B']] :
        List Line) ++ [['>', 'z']]) =
      buildDicts ([['>', 'a'], ['A'], ['>', 'b', '\t', 'c'], ['B']]) ∧
      (unpairedCond (['>', 'a']) = true →
        (['>', 'a'] : Line) ∈
            keysD (buildDicts
              ([['>', 'a'], ['A'], ['>', 'b', '\t', 'c'], ['B']])).1 ∧
          (['>', 'a'] : Line) ∉
            keysD (buildDicts
              ([['>', 'a'], ['A'], ['>', 'b', '\t', 'c'], ['B']])).2) ∧
      (unpairedCond (['>', 'a']) = false →
        (['>', 'a'] : Line) ∈
            keysD (buildDicts
              ([['>', 'a'], ['A'], ['>', 'b', '\t', 'c'], ['B']])).2 ∧
          (['>', 'a'] : Line) ∉
            keysD (buildDicts
              ([['>', 'a'], ['A'], ['>', 'b', '\t', 'c'], ['B']])).1) :=
  process_chain_pairing
    ([['>', 'a'], ['A'], ['>', 'b', '\t', 'c'], ['B']]) (['>', 'z']) 0
    (by decide) (by decide)

/-! ## Paired merge: build_paired_msa (convert_between_a3m_json.py).

`sorted(list(set(key for d in paired_list for key in d.keys())))` followed by
per-key assembly: each chain contributes its stored sequence for the key, or
a gap run of its declared length. -/

/-- Python `key in d.keys()` / `d[key]` on an insertion-ordered dict. -/
def lookupD (k : Line) : HDict → Option Line
  | [] => none
  | (k', v) :: rest => if k' = k then some v else lookupD k rest

/-- The sorted union of all chains' paired headers. -/
def pairedKeys (paired_list : List HDict) : List Line :=
  List.insertionSort (· ≤ ·) ((paired_list.map keysD).flatten.dedup)

/-- One merged row: per chain (in declared order), the chain's sequence for
the key if present, else a gap run of the chain's declared length. -/
def pairedRow (paired_list : List HDict) (seqlens : List Nat) (key : Line) :
    Line :=
  (paired_list.enum.map fun jd =>
    match lookupD key jd.2 with
    | some s => s
    | none => List.replicate (seqlens.getD jd.1 0) '-').flatten

/-- build_paired_msa: the flat list of alternating header and merged row. -/
def build_paired_msa (paired_list : List HDict) (seqlens : List Nat) :
    List Line :=
  (pairedKeys paired_list).flatMap fun key =>
    [key, pairedRow paired_list seqlens key]

theorem keysD_cons (p : Line × Line) (d : HDict) :
    keysD (p :: d) = p.1 :: keysD d := rfl

theorem mem_keysD (k : Line) (d : HDict) : k ∈ keysD d ↔ ∃ s, (k, s) ∈ d := by
  constructor
  · intro hk
    obtain ⟨⟨a, b⟩, hab, hfst⟩ := List.mem_map.1 hk
    exact ⟨b, by rwa [show a = k from hfst] at hab⟩
  · rintro ⟨s, hs⟩
    exact List.mem_map.2 ⟨(k, s), hs, rfl⟩

theorem lookupD_perm (k : Line) (d d' : HDict) (h : d.Perm d')
    (hnd : (keysD d).Nodup) : lookupD k d = lookupD k d' := by
  induction h with
  | nil => rfl
  | cons x h ih =>
    obtain ⟨xk, xv⟩ := x
    by_cases hx : xk = k
    · simp [lookupD, hx]
    · simp only [lookupD, if_neg hx]
      rw [keysD_cons] at hnd
      exact ih (List.nodup_cons.1 hnd).2
  | swap x y l =>
    obtain ⟨xk, xv⟩ := x
    obtain ⟨yk, yv⟩ := y
    by_cases hx : xk = k <;> by_cases hy : yk = k
    · exfalso
      rw [keysD_cons, keysD_cons] at hnd
      refine (List.nodup_cons.1 hnd).1 ?_
      show yk ∈ xk :: keysD l
      rw [hy, ← hx]
      exact List.mem_cons_self _ _
    · simp [lookupD, hx, hy]
    · simp [lookupD, hx, hy]
    · simp [lookupD, hx, hy]
  | trans h1 h2 ih1 ih2 =>
    rw [ih1 hnd, ih2 (((h1.map Prod.fst).nodup_iff).1 hnd)]

theorem forall₂_lookup (k : Line) (pl pl' : List HDict)
    (hperm : List.Forall₂ List.Perm pl pl')
    (hnd : ∀ d ∈ pl, (keysD d).Nodup) :
    List.Forall₂ (fun d d' => lookupD k d = lookupD k d') pl pl' := by
  induction hperm with
  | nil => exact .nil
  | cons hd tl ih =>
    exact .cons (lookupD_perm k _ _ hd (hnd _ (List.mem_cons_self _ _)))
      (ih fun d hdm => hnd d (List.mem_cons_of_mem _ hdm))

theorem forall₂_keys_perm (pl pl' : List HDict)
    (h : List.Forall₂ List.Perm pl pl') :
    List.Forall₂ List.Perm (pl.map keysD) (pl'.map keysD) := by
  induction h with
  | nil => exact .nil
  | cons hd tl ih => exact .cons (hd.map Prod.fst) ih

theorem forall₂_perm_flatten (l1 l2 : List (List Line))
    (h : List.Forall₂ List.Perm l1 l2) : l1.flatten.Perm l2.flatten := by
  induction h with
  | nil => exact List.Perm.refl _
  | cons hd tl ih => simpa using hd.append ih

theorem pairedRow_congr_aux (k : Line) (ls : List Nat) (n : Nat)
    (pl pl' : List HDict)
    (h : List.Forall₂ (fun d d' => lookupD k d = lookupD k d') pl pl') :
    ((List.enumFrom n pl).map fun jd =>
        match lookupD k jd.2 with
        | some s => s
        | none => List.replicate (ls.getD jd.1 0) '-') =
      ((List.enumFrom n pl').map fun jd =>
        match lookupD k jd.2 with
        | some s => s
        | none => List.replicate (ls.getD jd.1 0) '-') := by
  induction h generalizing n with
  | nil => rfl
  | cons hd tl ih =>
    simp only [List.enumFrom, List.map_cons]
    rw [hd, ih (n + 1)]

/-- Claim C7 (confirmed): the paired merge emits exactly one header/row pair
per header in the lexicographically sorted union of all chains' paired
headers (the key list is duplicate-free, sorted, and covers exactly the
headers present in some chain); each row takes a chain's stored sequence
when present and a gap run of the declared length otherwise; and the output
is identical for any two insertion orders of the same per-chain entries. -/
theorem build_paired_spec (pl pl' : List HDict) (ls : List Nat)
    (hperm : List.Forall₂ List.Perm pl pl')
    (hnd : ∀ d ∈ pl, (keysD d).Nodup) :
    (pairedKeys pl).Nodup ∧
      List.Sorted (· ≤ ·) (pairedKeys pl) ∧
      (∀ k, k ∈ pairedKeys pl ↔ ∃ d ∈ pl, ∃ s, (k, s) ∈ d) ∧
      (build_paired_msa pl ls).length = 2 * (pairedKeys pl).length ∧
      build_paired_msa pl ls = build_paired_msa pl' ls := by
  refine ⟨?_, ?_, ?_, ?_, ?_⟩
  · exact ((List.perm_insertionSort _ _).nodup_iff).2 (List.nodup_dedup _)
  · exact List.sorted_insertionSort _ _
  · intro k
    rw [pairedKeys, (List.perm_insertionSort _ _).mem_iff, List.mem_dedup,
      List.mem_flatten]
    constructor
    · rintro ⟨l, hl, hk⟩
      obtain ⟨d, hd, rfl⟩ := List.mem_map.1 hl
      exact ⟨d, hd, (mem_keysD k d).1 hk⟩
    · rintro ⟨d, hd, s, hs⟩
      exact ⟨keysD d, List.mem_map.2 ⟨d, hd, rfl⟩, (mem_keysD k d).2 ⟨s, hs⟩⟩
  · rw [build_paired_msa, List.length_flatMap]
    have hmap : List.map (List.length ∘ fun key =>
          [key, pairedRow pl ls key]) (pairedKeys pl) =
        List.replicate (pairedKeys pl).length 2 := by
      induction pairedKeys pl with
      | nil => rfl
      | cons k ks ih => simp [List.replicate_succ, ih]
    rw [hmap, List.sum_replicate, smul_eq_mul]
    omega
  · have hkeys : pairedKeys pl = pairedKeys pl' := by
      refine List.eq_of_perm_of_sorted ?_ (List.sorted_insertionSort _ _)
        (List.sorted_insertionSort _ _)
      refine (List.perm_insertionSort _ _).trans ?_
      refine List.Perm.trans ?_ (List.perm_insertionSort _ _).symm
      exact (forall₂_perm_flatten _ _ (forall₂_keys_perm _ _ hperm)).dedup
    have hrow : ∀ k, pairedRow pl ls k = pairedRow pl' ls k := by
      intro k
      rw [pairedRow, pairedRow]
      rw [show pl.enum = List.enumFrom 0 pl from rfl,
        show pl'.enum = List.enumFrom 0 pl' from rfl]
      rw [pairedRow_congr_aux k ls 0 pl pl'
        (forall₂_lookup k pl pl' hperm hnd)]
    have hfun : (fun key => [key, pairedRow pl ls key]) =
        fun key => [key, pairedRow pl' ls key] :=
      funext fun k => by rw [hrow k]
    rw [build_paired_msa, build_paired_msa, hkeys, hfun]

/-- Claim C7 witness: two chains, the first holding keys b then a, the other
holding them in the opposite insertion order. -/
theorem build_paired_spec_witness :
    (pairedKeys ([[(['b'], ['B', 'B']), (['a'], ['A', 'A'])], []])).Nodup ∧
      List.Sorted (· ≤ ·)
        (pairedKeys ([[(['b'], ['B', 'B']), (['a'], ['A', 'A'])], []])) ∧
      (∀ k, k ∈ pairedKeys ([[(['b'], ['B', 'B']), (['a'], ['A', 'A'])], []])
          ↔ ∃ d ∈ ([[(['b'], ['B', 'B']), (['a'], ['A', 'A'])], []] :
            List HDict), ∃ s, (k, s) ∈ d) ∧
      (build_paired_msa ([[(['b'], ['B', 'B']), (['a'], ['A', 'A'])], []])
          ([2, 3])).length =
        2 * (pairedKeys
          ([[(['b'], ['B', 'B']), (['a'], ['A', 'A'])], []])).length ∧
      build_paired_msa ([[(['b'], ['B', 'B']), (['a'], ['A', 'A'])], []])
          ([2, 3]) =
        build_paired_msa ([[(['a'], ['A', 'A']), (['b'], ['B', 'B'])], []])
          ([2, 3]) :=
  build_paired_spec
    ([[(['b'], ['B', 'B']), (['a'], ['A', 'A'])], []])
    ([[(['a'], ['A', 'A']), (['b'], ['B', 'B'])], []])
    ([2, 3])
    (List.Forall₂.cons (by decide)
      (List.Forall₂.cons (by decide) List.Forall₂.nil))
    (by decide)

/-! ## get_data_from_a3m (convert_between_a3m_json.py): header parsing and
the query-length check `len(full_seq) != total_length`. -/

/-- The Python exceptions the embedded code can raise. -/
inductive PyErr
  | valueError
  | indexError
  | sysExit
deriving DecidableEq

/-- Python str.split(sep): split on a separator character, keeping empty
fields. -/
def splitOnChar (sep : Char) : Line → List Line
  | [] => [[]]
  | c :: rest =>
    let r := splitOnChar sep rest
    if c == sep then [] :: r
    else (c :: r.headD []) :: r.tail

/-- Python str.strip(ch): remove leading and trailing copies of one
character. -/
def stripChar (ch : Char) (l : Line) : Line :=
  ((l.dropWhile (· == ch)).reverse.dropWhile (· == ch)).reverse

/-- Python int() on a nonnegative decimal numeral. -/
def digitsToNat (l : Line) : Option Nat :=
  if l.isEmpty then none
  else
    l.foldl
      (fun acc c => acc.bind fun n =>
        if c.isDigit then some (n * 10 + (c.toNat - 48)) else none)
      (some 0)

/-- `list(map(int, ...))`: parse every token or raise. -/
def parseNats : List Line → Option (List Nat)
  | [] => some []
  | t :: ts =>
    (digitsToNat t).bind fun n => (parseNats ts).map fun ns => n :: ns

/-- get_data_from_a3m: parse declared chain lengths from the first line,
take the chain names from the second, and check the third (query) line's raw
character count against the sum of declared lengths, raising ValueError on
mismatch; on success, split the query into per-chain segments. -/
def get_data_from_a3m (a3m_lines : List Line) :
    Except PyErr (List Nat × List Line × List Line) :=
  match a3m_lines with
  | l0 :: l1 :: l2 :: _ =>
    match splitOnChar '\t' (stripChar '#' l0) with
    | h0 :: _ :: _ =>
      match parseNats (splitOnChar ',' h0) with
      | some chains =>
        if l2.length ≠ chains.sum then .error .valueError
        else
          .ok (chains, splitOnChar '\t' (stripChar '>' l1),
            split_sequence_by_chains l2 chains)
      | none => .error .valueError
    | _ => .error .indexError
  | _ => .error .indexError

/-- Claim C6 counterexample: for declared lengths `[2]` and query row `"Ax"`
the visible length is 1, not 2, yet no error is raised (the code compares the
raw character count, which is 2): the fatal error is not equivalent to a
visible-length mismatch. -/
theorem length_check_counterexample :
    visibleCount (['A', 'x']) ≠ ([2] : List Nat).sum ∧
      get_data_from_a3m
          ([['#', '2', '\t', '1'], ['>', '1', '0', '1'], ['A', 'x']]) =
        .ok (([2]), [['1', '0', '1']], [['A', 'x']]) := by
  constructor
  · decide
  · rfl

/-- Claim C6 (corrected): with a parseable header line, A3M-to-JSON
extraction raises a fatal error (and returns no data, so no output file is
written) if and only if the query row's raw character count, lowercase
insertions included, differs from the sum of the declared chain lengths. -/
theorem length_check_spec (l0 l1 l2 : Line) (rest : List Line)
    (h0 h1 : Line) (hs : List Line) (chains : List Nat)
    (hsplit : splitOnChar '\t' (stripChar '#' l0) = h0 :: h1 :: hs)
    (hparse : parseNats (splitOnChar ',' h0) = some chains) :
    ((∃ e, get_data_from_a3m (l0 :: l1 :: l2 :: rest) = .error e) ↔
        l2.length ≠ chains.sum) ∧
      (l2.length = chains.sum →
        get_data_from_a3m (l0 :: l1 :: l2 :: rest) =
          .ok (chains, splitOnChar '\t' (stripChar '>' l1),
            split_sequence_by_chains l2 chains)) := by
  have hred : get_data_from_a3m (l0 :: l1 :: l2 :: rest) =
      (match splitOnChar '\t' (stripChar '#' l0) with
        | h0 :: _ :: _ =>
          match parseNats (splitOnChar ',' h0) with
          | some chains =>
            if l2.length ≠ chains.sum then .error .valueError
            else
              .ok (chains, splitOnChar '\t' (stripChar '>' l1),
                split_sequence_by_chains l2 chains)
          | none => .error .valueError
        | _ => .error .indexError) := rfl
  rw [hred, hsplit]
  simp only [hparse]
  by_cases hlen : l2.length = chains.sum
  · simp [hlen]
  · simp only [ne_eq, hlen, not_false_eq_true, if_true]
    constructor
    · simp
    · intro h
      exact h.elim

/-- Claim C6 witness (for the corrected statement): query row `"ABC"` has raw
length 3 against declared total 2, so the ValueError branch is taken. -/
theorem length_check_spec_witness :
    ((∃ e, get_data_from_a3m
          ([['#', '2', '\t', '1'], ['>', '1', '0', '1'], ['A', 'B', 'C']]) =
        .error e) ↔ (['A', 'B', 'C'] : Line).length ≠ ([2] : List Nat).sum) ∧
      ((['A', 'B', 'C'] : Line).length = ([2] : List Nat).sum →
        get_data_from_a3m
            ([['#', '2', '\t', '1'], ['>', '1', '0', '1'],
              ['A', 'B', 'C']]) =
          .ok (([2]), splitOnChar '\t' (stripChar '>' (['>', '1', '0', '1'])),
            split_sequence_by_chains (['A', 'B', 'C']) ([2]))) :=
  length_check_spec (['#', '2', '\t', '1']) (['>', '1', '0', '1'])
    (['A', 'B', 'C']) ([]) (['2']) (['1']) ([]) ([2]) (by rfl) (by rfl)

/-! ## remove_msa_from_chain_af2.py: the line-oriented removal machine.

Lines are processed in order; the `'#'` header line is parsed and the chain
index validated; the line containing `'>101\t102'` starts the paired block
(edit mode when more than two chains, skip mode otherwise) and its following
line is copied unconditionally; a line starting with `'>10' + str(chain)`
starts the target chain's own block (skip mode), its following line copied
unconditionally; any other header without a tab returns to passthrough.
The skip state drops lines; the edit state rewrites sequence lines. -/

/-- Does the line start with the given character. -/
def startsWithChar (ch : Char) : Line → Bool
  | [] => false
  | c :: _ => c == ch

/-- Python str(n) for the chain argument. -/
def intStr (n : Int) : Line :=
  if n < 0 then '-' :: Nat.toDigits 10 (-n).toNat else Nat.toDigits 10 n.toNat

/-- The prefix `'>10' + str(peptide)` identifying the target chain's own
block header. -/
def chainPat (chain : Int) : Line := '>' :: '1' :: '0' :: intStr chain

/-- The paired-block marker substring `'>101\t102'`. -/
def pairMarker : Line := ['>', '1', '0', '1', '\t', '1', '0', '2']

def hasPairMarker (line : Line) : Bool := strContains pairMarker line

/-- Python str.split() with no argument: split on whitespace runs, dropping
empty fields. -/
def splitWs (l : Line) : List Line :=
  (((splitOnChar ' ' l).flatMap (splitOnChar '\t')).flatMap
    (splitOnChar '\n')).filter (fun t => !t.isEmpty)

/-- `lengths, _ = line[1:].split(); lengths = lengths.split(',')`: exactly
two whitespace-separated fields are required (ValueError otherwise), and the
first is split on commas. -/
def headerFields (line : Line) : Option (List Line) :=
  match splitWs (line.drop 1) with
  | [a, _] => some (splitOnChar ',' a)
  | _ => none

/-- Python int() accepting an optional minus sign. -/
def pyToInt (l : Line) : Option Int :=
  match l with
  | '-' :: rest => (digitsToNat rest).map fun n => -(n : Int)
  | _ => (digitsToNat l).map fun n => (n : Int)

/-- The inner character walk of the edit rewrite: append characters one by
one, counting uppercase letters and dashes, stopping as soon as the count
equals the declared length; returns the appended characters and the final
count (which is the number of characters later sliced off the line). -/
def editWalkAux (l : Int) (cnt : Nat) : Line → Line × Nat
  | [] => ([], cnt)
  | c :: rest =>
    let cnt2 := if c.isUpper || c == '-' then cnt + 1 else cnt
    if (cnt2 : Int) = l then ([c], cnt2)
    else
      let p := editWalkAux l cnt2 rest
      (c :: p.1, p.2)

/-- The edit rewrite over the declared lengths: for every chain except the
target, walk and append; for the target chain append a gap run of its
declared length (the source does not advance the line there, and slices off
only `capital_dash` characters after a walk). -/
def editLineAux (chain : Int) : Nat → List Line → Line → Except PyErr Line
  | _, [], _ => .ok []
  | i, l :: ls, line =>
    match pyToInt l with
    | none => .error .valueError
    | some li =>
      if (i : Int) ≠ chain - 1 then
        let p := editWalkAux li 0 line
        (editLineAux chain (i + 1) ls (line.drop p.2)).map fun t => p.1 ++ t
      else
        (editLineAux chain (i + 1) ls line).map fun t =>
          List.replicate li.toNat '-' ++ t

def editLine (chain : Int) (lengths : List Line) (line : Line) :
    Except PyErr Line :=
  editLineAux chain 0 lengths line

/-- The removal machine's main loop over the input lines, carrying the
declared lengths and the skip and edit flags. -/
def rmLoop (chain : Int) :
    List Line → Bool → Bool → List Line → Except PyErr (List Line)
  | _, _, _, [] => .ok []
  | lengths, skip, edit, line :: rest =>
    if startsWithChar '#' line then
      match headerFields line with
      | some lens =>
        if chain > (lens.length : Int) ∨ chain = 0 then .error .sysExit
        else (rmLoop chain lens skip edit rest).map (line :: ·)
      | none => .error .valueError
    else if hasPairMarker line then
      match rest with
      | [] => .ok [line]
      | nl :: rest2 =>
        if lengths.length > 2 then
          (rmLoop chain lengths skip true rest2).map fun o => line :: nl :: o
        else
          (rmLoop chain lengths true edit rest2).map fun o => line :: nl :: o
    else if isPrefixL (chainPat chain) line then
      match rest with
      | [] => .ok [line]
      | nl :: rest2 =>
        (rmLoop chain lengths true edit rest2).map fun o => line :: nl :: o
    else if startsWithChar '>' line && !(line.contains '\t') then
      (rmLoop chain lengths false false rest).map (line :: ·)
    else if edit && !(startsWithChar '>' line) then
      match editLine chain lengths line with
      | .ok newl => (rmLoop chain lengths skip edit rest).map (newl :: ·)
      | .error e => .error e
    else if !skip then
      (rmLoop chain lengths skip edit rest).map (line :: ·)
    else
      rmLoop chain lengths skip edit rest

/-- The whole tool: initial state has lengths `[1]`, both flags off; an error
value means sys.exit or an exception before the output file is written. -/
def remove_msa (chain : Int) (lines : List Line) : Except PyErr (List Line) :=
  rmLoop chain ([['1']]) false false lines

/-- One unfolding step of the loop on a nonempty input, for reasoning with
abstract lines. -/
theorem rmLoop_cons (chain : Int) (lengths : List Line) (skip edit : Bool)
    (line : Line) (rest : List Line) :
    rmLoop chain lengths skip edit (line :: rest) =
      (if startsWithChar '#' line then
        match headerFields line with
        | some lens =>
          if chain > (lens.length : Int) ∨ chain = 0 then .error .sysExit
          else (rmLoop chain lens skip edit rest).map (line :: ·)
        | none => .error .valueError
      else if hasPairMarker line then
        match rest with
        | [] => .ok [line]
        | nl :: rest2 =>
          if lengths.length > 2 then
            (rmLoop chain lengths skip true rest2).map fun o => line :: nl :: o
          else
            (rmLoop chain lengths true edit rest2).map fun o => line :: nl :: o
      else if isPrefixL (chainPat chain) line then
        match rest with
        | [] => .ok [line]
        | nl :: rest2 =>
          (rmLoop chain lengths true edit rest2).map fun o => line :: nl :: o
      else if startsWithChar '>' line && !(line.contains '\t') then
        (rmLoop chain lengths false false rest).map (line :: ·)
      else if edit && !(startsWithChar '>' line) then
        match editLine chain lengths line with
        | .ok newl => (rmLoop chain lengths skip edit rest).map (newl :: ·)
        | .error e => .error e
      else if !skip then
        (rmLoop chain lengths skip edit rest).map (line :: ·)
      else
        rmLoop chain lengths skip edit rest) := by
  cases rest with
  | nil => rfl
  | cons nl rest2 => rfl

/-- Claim C5 counterexample: a negative chain index (here -1) is outside
[1, chain_count], yet validation passes (`args.chain > len(lengths)` and
`args.chain == 0` are both false) and the tool writes output normally. -/
theorem invalid_chain_counterexample :
    ((-1 : Int) < 1) ∧
      remove_msa (-1) ([['#', '3', ',', '2', '\t', '1', ',', '1']]) =
        .ok ([['#', '3', ',', '2', '\t', '1', ',', '1']]) := by
  constructor
  · decide
  · rfl

/-- Claim C5 (corrected): on a header line declaring `n` chain lengths, the
removal tool aborts with a fatal error (sys.exit(1), so no output is
written) when the requested chain index is 0 or greater than `n`; indices
below zero are not rejected by this validation. -/
theorem invalid_chain_spec (chain : Int) (hdr : Line) (rest : List Line)
    (lens : List Line)
    (hh : startsWithChar '#' hdr = true)
    (hf : headerFields hdr = some lens)
    (hbad : chain = 0 ∨ chain > (lens.length : Int)) :
    remove_msa chain (hdr :: rest) = .error .sysExit := by
  unfold remove_msa
  rw [rmLoop_cons]
  simp only [hh, hf, if_true]
  rw [if_pos (by tauto)]

/-- Claim C5 witness (for the corrected statement, at chain index 0). -/
theorem invalid_chain_spec_witness :
    remove_msa 0 ([['#', '3', ',', '2', '\t', '1', ',', '1']]) =
      .error .sysExit :=
  invalid_chain_spec 0 (['#', '3', ',', '2', '\t', '1', ',', '1']) ([])
    ([['3'], ['2']]) (by rfl) (by rfl) (Or.inl rfl)

/-- Claim C1 (code bug): removing chain 2 from the three-chain alignment
with lengths 3,4,2 rewrites the paired row `ABCDEFGHI` to `ABC----DE`
instead of `ABC----HI`: the target chain's characters are never sliced off
the line, so chain 3's columns receive chain 2's leading characters.  The
total width happens to be preserved, but the untouched chain's columns are
not copied through verbatim as the claim states. -/
theorem edit_paired_eval :
    remove_msa 2
        ([['#', '3', ',', '4', ',', '2', '\t', '1', ',', '1', ',', '1'],
          ['>', '1', '0', '1', '\t', '1', '0', '2', '\t', '1', '0', '3'],
          ['A', 'B', 'C', 'D', 'E', 'F', 'G', 'H', 'I'],
          ['>', 'p', 'A', '\t', 'p', 'B'],
          ['A', 'B', 'C', 'D', 'E', 'F', 'G', 'H', 'I']]) =
      .ok ([['#', '3', ',', '4', ',', '2', '\t', '1', ',', '1', ',', '1'],
        ['>', '1', '0', '1', '\t', '1', '0', '2', '\t', '1', '0', '3'],
        ['A', 'B', 'C', 'D', 'E', 'F', 'G', 'H', 'I'],
        ['>', 'p', 'A', '\t', 'p', 'B'],
        ['A', 'B', 'C', '-', '-', '-', '-', 'D', 'E']]) ∧
      (['A', 'B', 'C', '-', '-', '-', '-', 'D', 'E'] : Line) ≠
        ['A', 'B', 'C', '-', '-', '-', '-', 'H', 'I'] := by
  constructor
  · rfl
  · decide

/-- A row that the machine drops while the skip flag is on and the edit flag
off: not a header line, no paired-block marker, not the target chain's block
prefix, and if it starts a FASTA header it contains a tab (a tab-free header
would switch back to passthrough). -/
def dropRow (chain : Int) (line : Line) : Prop :=
  startsWithChar '#' line = false ∧ hasPairMarker line = false ∧
    isPrefixL (chainPat chain) line = false ∧
    (startsWithChar '>' line = true → line.contains '\t' = true)

/-- A row that passes through unchanged while both flags are off: not a
header line, no paired-block marker, not the target chain's block prefix. -/
def passRow (chain : Int) (line : Line) : Prop :=
  startsWithChar '#' line = false ∧ hasPairMarker line = false ∧
    isPrefixL (chainPat chain) line = false

instance (chain : Int) (line : Line) : Decidable (dropRow chain line) :=
  inferInstanceAs (Decidable (startsWithChar '#' line = false ∧
    hasPairMarker line = false ∧ isPrefixL (chainPat chain) line = false ∧
    (startsWithChar '>' line = true → line.contains '\t' = true)))

instance (chain : Int) (line : Line) : Decidable (passRow chain line) :=
  inferInstanceAs (Decidable (startsWithChar '#' line = false ∧
    hasPairMarker line = false ∧ isPrefixL (chainPat chain) line = false))

theorem rmLoop_drop (chain : Int) (lengths : List Line)
    (rows rest : List Line) (h : ∀ r ∈ rows, dropRow chain r) :
    rmLoop chain lengths true false (rows ++ rest) =
      rmLoop chain lengths true false rest := by
  induction rows with
  | nil => rfl
  | cons r rows ih =>
    obtain ⟨h1, h2, h3, h4⟩ := h r (List.mem_cons_self _ _)
    have ih2 := ih fun x hx => h x (List.mem_cons_of_mem _ hx)
    rw [List.cons_append, rmLoop_cons]
    by_cases hgt : startsWithChar '>' r = true
    · simp only [h1, h2, h3, hgt, h4 hgt, Bool.false_eq_true, if_false,
        Bool.not_true, Bool.and_false, Bool.false_and, Bool.not_false]
      exact ih2
    · have hgt2 : startsWithChar '>' r = false := by
        rwa [Bool.not_eq_true] at hgt
      simp only [h1, h2, h3, hgt2, Bool.false_eq_true, if_false,
        Bool.false_and, Bool.not_false, Bool.and_true, Bool.not_true]
      exact ih2

theorem rmLoop_pass (chain : Int) (lengths : List Line)
    (rows rest : List Line) (h : ∀ r ∈ rows, passRow chain r) :
    rmLoop chain lengths false false (rows ++ rest) =
      (rmLoop chain lengths false false rest).map (rows ++ ·) := by
  induction rows with
  | nil =>
    cases hres : rmLoop chain lengths false false rest <;>
      simp [Except.map, hres]
  | cons r rows ih =>
    obtain ⟨h1, h2, h3⟩ := h r (List.mem_cons_self _ _)
    have ih2 := ih fun x hx => h x (List.mem_cons_of_mem _ hx)
    rw [List.cons_append, rmLoop_cons]
    by_cases hgt : startsWithChar '>' r = true
    · by_cases htab : r.contains '\t' = true
      · simp only [h1, h2, h3, hgt, htab, Bool.false_eq_true, if_false,
          Bool.not_true, Bool.and_false, Bool.false_and, Bool.not_false,
          if_true, ih2]
        cases hres : rmLoop chain lengths false false rest <;>
          simp [Except.map, hres]
      · have htab2 : r.contains '\t' = false := by
          rwa [Bool.not_eq_true] at htab
        simp only [h1, h2, h3, hgt, htab2, Bool.false_eq_true, if_false,
          Bool.not_false, Bool.and_true, if_true, ih2]
        cases hres : rmLoop chain lengths false false rest <;>
          simp [Except.map, hres]
    · have hgt2 : startsWithChar '>' r = false := by
        rwa [Bool.not_eq_true] at hgt
      simp only [h1, h2, h3, hgt2, Bool.false_eq_true, if_false,
        Bool.false_and, Bool.not_false, if_true, ih2]
      cases hres : rmLoop chain lengths false false rest <;>
        simp [Except.map, hres]

/-- Claim C2 counterexample: in a two-chain alignment, the paired-block
marker row and its following (query) row ARE emitted, and so are the target
chain's `>102` block header and its following row, and even the target
chain's subsequent tab-free MSA header and its row (which switch the machine
back to passthrough); the claim's assertion that none of these lines are
emitted is false. -/
theorem twochain_counterexample :
    remove_msa 2
        ([['#', '3', ',', '2', '\t', '1', ',', '1'],
          ['>', '1', '0', '1', '\t', '1', '0', '2'],
          ['A', 'B', 'C', 'D', 'E'],
          ['>', 'p', '1', '\t', 'p', '2'],
          ['F', 'G', 'H', 'I', 'J'],
          ['>', '1', '0', '1'],
          ['A', 'B', 'C', '-', '-'],
          ['>', 'u', '1'],
          ['K', 'L', 'M', '-', '-'],
          ['>', '1', '0', '2'],
          ['-', '-', '-', 'D', 'E'],
          ['>', 'u', '2'],
          ['-', '-', '-', 'N', 'O']]) =
      .ok ([['#', '3', ',', '2', '\t', '1', ',', '1'],
        ['>', '1', '0', '1', '\t', '1', '0', '2'],
        ['A', 'B', 'C', 'D', 'E'],
        ['>', '1', '0', '1'],
        ['A', 'B', 'C', '-', '-'],
        ['>', 'u', '1'],
        ['K', 'L', 'M', '-', '-'],
        ['>', '1', '0', '2'],
        ['-', '-', '-', 'D', 'E'],
        ['>', 'u', '2'],
        ['-', '-', '-', 'N', 'O']]) ∧
      (['>', '1', '0', '1', '\t', '1', '0', '2'] : Line) ∈
        ([['#', '3', ',', '2', '\t', '1', ',', '1'],
          ['>', '1', '0', '1', '\t', '1', '0', '2'],
          ['A', 'B', 'C', 'D', 'E'],
          ['>', '1', '0', '1'],
          ['A', 'B', 'C', '-', '-'],
          ['>', 'u', '1'],
          ['K', 'L', 'M', '-', '-'],
          ['>', '1', '0', '2'],
          ['-', '-', '-', 'D', 'E'],
          ['>', 'u', '2'],
          ['-', '-', '-', 'N', 'O']] : List Line) := by
  constructor
  · rfl
  · decide

/-- Claim C2 (corrected): in a two-chain alignment the machine on the
paired-block marker emits the marker row and its immediately following row
and only then enters the skip state, so the paired rows that follow (headers
containing tabs, with their sequence rows) are dropped until the next
tab-free header; the target chain's `>102` block header and its immediately
following row are likewise emitted before the skip state resumes, with only
the following rows up to the next tab-free header dropped; chain 1's rows
pass through unchanged. -/
theorem twochain_removal_spec
    (hdr marker query c1hdr c2hdr c2first : Line)
    (pairedRows c1rows c2tail : List Line) (la lb : Line)
    (hh : startsWithChar '#' hdr = true)
    (hf : headerFields hdr = some ([la, lb]))
    (hm0 : startsWithChar '#' marker = false)
    (hm : hasPairMarker marker = true)
    (hpr : ∀ r ∈ pairedRows, dropRow 2 r)
    (hc1a : startsWithChar '#' c1hdr = false)
    (hc1b : hasPairMarker c1hdr = false)
    (hc1c : isPrefixL (chainPat 2) c1hdr = false)
    (hc1d : startsWithChar '>' c1hdr = true)
    (hc1e : c1hdr.contains '\t' = false)
    (hc1r : ∀ r ∈ c1rows, passRow 2 r)
    (hc2a : startsWithChar '#' c2hdr = false)
    (hc2b : hasPairMarker c2hdr = false)
    (hc2c : isPrefixL (chainPat 2) c2hdr = true)
    (hc2t : ∀ r ∈ c2tail, dropRow 2 r) :
    remove_msa 2 (hdr :: marker :: query ::
        (pairedRows ++ c1hdr :: (c1rows ++ c2hdr :: c2first :: c2tail))) =
      .ok (hdr :: marker :: query :: c1hdr ::
        (c1rows ++ [c2hdr, c2first])) := by
  have e1 : rmLoop 2 ([la, lb]) true false c2tail = .ok ([]) := by
    have := rmLoop_drop 2 ([la, lb]) c2tail ([]) hc2t
    simpa using this
  have e2 : rmLoop 2 ([la, lb]) false false (c2hdr :: c2first :: c2tail) =
      .ok ([c2hdr, c2first]) := by
    rw [rmLoop_cons]
    simp [hc2a, hc2b, hc2c, e1, Except.map]
  have e3 : rmLoop 2 ([la, lb]) false false
      (c1rows ++ c2hdr :: c2first :: c2tail) =
      .ok (c1rows ++ [c2hdr, c2first]) := by
    rw [rmLoop_pass 2 ([la, lb]) c1rows _ hc1r, e2]
    simp [Except.map]
  have hc1mem : '\t' ∉ c1hdr := by
    intro hm2
    have h2 := List.elem_iff.2 hm2
    rw [show List.elem '\t' c1hdr = c1hdr.contains '\t' from rfl, hc1e] at h2
    exact Bool.false_ne_true h2
  have e4 : rmLoop 2 ([la, lb]) true false
      (c1hdr :: (c1rows ++ c2hdr :: c2first :: c2tail)) =
      .ok (c1hdr :: (c1rows ++ [c2hdr, c2first])) := by
    rw [rmLoop_cons]
    simp [hc1a, hc1b, hc1c, hc1d, hc1e, hc1mem, e3, Except.map]
  have e5 : rmLoop 2 ([la, lb]) true false
      (pairedRows ++ c1hdr :: (c1rows ++ c2hdr :: c2first :: c2tail)) =
      .ok (c1hdr :: (c1rows ++ [c2hdr, c2first])) := by
    rw [rmLoop_drop 2 ([la, lb]) pairedRows _ hpr, e4]
  have e6 : rmLoop 2 ([la, lb]) false false (marker :: query ::
      (pairedRows ++ c1hdr :: (c1rows ++ c2hdr :: c2first :: c2tail))) =
      .ok (marker :: query :: c1hdr :: (c1rows ++ [c2hdr, c2first])) := by
    rw [rmLoop_cons]
    simp [hm0, hm, e5, Except.map]
  unfold remove_msa
  rw [rmLoop_cons]
  simp [hh, hf, e6, Except.map]

/-- Claim C2 witness (for the corrected statement): the concrete two-chain
alignment, with its paired hit dropped and everything else emitted. -/
theorem twochain_removal_spec_witness :
    remove_msa 2
        ([['#', '3', ',', '2', '\t', '1', ',', '1'],
          ['>', '1', '0', '1', '\t', '1', '0', '2'],
          ['A', 'B', 'C', 'D', 'E'],
          ['>', 'p', '1', '\t', 'p', '2'],
          ['F', 'G', 'H', 'I', 'J'],
          ['>', '1', '0', '1'],
          ['A', 'B', 'C', '-', '-'],
          ['>', '1', '0', '2'],
          ['-', '-', '-', 'D', 'E'],
          ['>', 'x', '\t', 'y'],
          ['Q', 'R', 'S', 'T', 'U']]) =
      .ok ([['#', '3', ',', '2', '\t', '1', ',', '1'],
        ['>', '1', '0', '1', '\t', '1', '0', '2'],
        ['A', 'B', 'C', 'D', 'E'],
        ['>', '1', '0', '1'],
        ['A', 'B', 'C', '-', '-'],
        ['>', '1', '0', '2'],
        ['-', '-', '-', 'D', 'E']]) :=
  twochain_removal_spec
    (['#', '3', ',', '2', '\t', '1', ',', '1'])
    (['>', '1', '0', '1', '\t', '1', '0', '2'])
    (['A', 'B', 'C', 'D', 'E'])
    (['>', '1', '0', '1'])
    (['>', '1', '0', '2'])
    (['-', '-', '-', 'D', 'E'])
    ([['>', 'p', '1', '\t', 'p', '2'], ['F', 'G', 'H', 'I', 'J']])
    ([['A', 'B', 'C', '-', '-']])
    ([['>', 'x', '\t', 'y'], ['Q', 'R', 'S', 'T', 'U']])
    (['3']) (['2'])
    (by rfl) (by rfl) (by rfl) (by rfl) (by decide)
    (by rfl) (by rfl) (by rfl) (by rfl) (by rfl) (by decide)
    (by rfl) (by rfl) (by rfl) (by decide)

/-! ## Round trip: split_msa_vertically followed by per-chain classification
(process_chain) and the paired/unpaired merges (convert_between_a3m_json.py).

split_msa_vertically appends each header line to every chain's list and each
sequence line's per-chain segments positionally; its comment says a segment
is added "if it's not only gaps", but the code appends unconditionally. -/

def split_msa_vertically (chains : List Nat) (nchains : Nat)
    (a3m_lines : List Line) : List (List Line) :=
  a3m_lines.foldl
    (fun acc line =>
      if startsWithChar '>' line then acc.map fun l => l ++ [line]
      else
        (acc.zip (split_sequence_by_chains line chains)).map
          fun p => p.1 ++ [p.2])
    (List.replicate nchains ([]))

/-- build_unpaired_msa, chain by chain: each unpaired entry becomes its own
full-width row, gap-padded by the sum of the declared lengths before and
after the chain. -/
def build_unpaired_aux (seqlens : List Nat) : Nat → List HDict → List Line
  | _, [] => []
  | i, d :: ds =>
    (d.flatMap fun hs =>
      [hs.1, List.replicate ((seqlens.take i).sum) '-' ++ hs.2 ++
        List.replicate ((seqlens.drop (i + 1)).sum) '-']) ++
      build_unpaired_aux seqlens (i + 1) ds

def build_unpaired_msa (seqlens : List Nat) (unpaired_list : List HDict) :
    List Line :=
  build_unpaired_aux seqlens 0 unpaired_list

/-- The composed round trip: extract the alignment data, regroup rows per
chain (Row Grouper over a3m_lines[1:]), classify each chain's rows into the
unpaired and paired dictionaries, and merge back (per-chain sequence lengths
taken from the split query segments, as in process_chain). -/
def a3m_roundtrip (lines : List Line) :
    Except PyErr (List Line × List Line) :=
  match get_data_from_a3m lines with
  | .error e => .error e
  | .ok (chains, names, sequences) =>
    let perChain := split_msa_vertically chains names.length (lines.drop 1)
    let dicts := perChain.map buildDicts
    let seqlens := sequences.map List.length
    .ok (build_paired_msa (dicts.map Prod.snd) seqlens,
      build_unpaired_msa seqlens (dicts.map Prod.fst))

/-- Claim C4 (code bug): on a two-chain alignment with one paired hit and
one unpaired hit belonging to chain 1, the round trip reproduces the paired
rows, but the unpaired output additionally contains an all-gap row
`('>hU', '----')` for chain 2 — the segment consisting only of gaps is
appended to chain 2's list despite the source comment saying it should not
be — so the unpaired sets differ from the original alignment's. -/
theorem roundtrip_eval :
    a3m_roundtrip
        ([['#', '2', ',', '2', '\t', '1', ',', '1'],
          ['>', '1', '0', '1', '\t', '1', '0', '2'],
          ['A', 'B', 'C', 'D'],
          ['>', 'h', 'P', '\t', 'z'],
          ['E', 'F', 'G', 'H'],
          ['>', 'h', 'U'],
          ['I', 'J', '-', '-']]) =
      .ok (([['>', '1', '0', '1', '\t', '1', '0', '2'],
          ['A', 'B', 'C', 'D'],
          ['>', 'h', 'P', '\t', 'z'],
          ['E', 'F', 'G', 'H']],
        [['>', 'h', 'U'], ['I', 'J', '-', '-'],
          ['>', 'h', 'U'], ['-', '-', '-', '-']])) ∧
      ((['>', 'h', 'U'] : Line), (['-', '-', '-', '-'] : Line)) ∈
        splitPairs ([['>', 'h', 'U'], ['I', 'J', '-', '-'],
          ['>', 'h', 'U'], ['-', '-', '-', '-']]) ∧
      ((['>', 'h', 'U'] : Line), (['-', '-', '-', '-'] : Line)) ∉
        splitPairs ([['>', 'h', 'U'], ['I', 'J', '-', '-']]) := by
  refine ⟨?_, by decide, by decide⟩
  rfl
